import Mathlib

/-!
Shallow embedding of the table-extraction pipeline in `src/pipeline.py`
(class `TableExtractionPipeline`): the OCR fallback loop (`run_ocr`),
the external refinement call (`gemini_refine`), the cross-page table
stitching (`merge_split_tables`), and the final JSON assembly part of
`process_document`.  Bounding-box coordinates are modelled as integers;
fallible Python statements become `Except PyErr`.
-/

/-- Python exception classes that the embedded code can raise or catch. -/
inductive PyErr where
  | indexError
  | valueError
  | keyError
  | typeError
  | requestException
  | jsonDecodeError
deriving DecidableEq, Repr

/-- A bounding box `[x0, y0, x1, y1]` in image coordinates (y grows downward). -/
structure BBox where
  x0 : Int
  y0 : Int
  x1 : Int
  y1 : Int
deriving DecidableEq, Repr

/-- One row of a detected table: the code reads only its `bbox`. -/
structure Row where
  bbox : BBox
deriving DecidableEq, Repr

/-- One cell of a detected table: `row_id`, `col_id`, `is_header`, `text`
(`None` when recognition produced nothing) and its box. -/
structure Cell where
  row_id : Nat
  col_id : Nat
  is_header : Bool
  text : Option String
  bbox : BBox
deriving DecidableEq, Repr

/-- A table fragment / merged table dict: keys `page`, `bbox`, `rows`, `cells`. -/
structure Table where
  page : Nat
  bbox : BBox
  rows : List Row
  cells : List Cell
deriving DecidableEq, Repr

/-- A layout region from the layout predictor: a `label` and a `bbox`. -/
structure LayoutBox where
  label : String
  bbox : BBox
deriving DecidableEq, Repr

/-- One recognized OCR text line: `text`, `bbox`, and `confidence`
(confidence is carried but never read by the pipeline logic). -/
structure OcrLine where
  text : String
  bbox : BBox
  confidence : Int
deriving DecidableEq, Repr

/-- One page's OCR result dict: key `text_lines`. -/
structure OcrPage where
  text_lines : List OcrLine
deriving DecidableEq, Repr

/-- A left-to-right fold over a list in which each step may raise, exactly the
semantics of a Python `for` loop whose body may throw: the first error aborts
the whole loop. -/
def exceptFoldl {ε α β : Type} (f : β → α → Except ε β) : β → List α → Except ε β
  | b, [] => .ok b
  | b, a :: l =>
    match f b a with
    | .ok b' => exceptFoldl f b' l
    | .error e => .error e

/-- Python `max(...)` over a list of naturals: `ValueError` on an empty list. -/
def pyMax : List Nat → Except PyErr Nat
  | [] => .error .valueError
  | x :: xs => .ok (xs.foldl Nat.max x)

/-- Python `t["rows"][-1]`: the last row, `IndexError` when there is none. -/
def rowsLast (t : Table) : Except PyErr Row :=
  match t.rows.getLast? with
  | some r => .ok r
  | none => .error .indexError

/-- Python `t["rows"][0]`: the first row, `IndexError` when there is none. -/
def rowsFirst (t : Table) : Except PyErr Row :=
  match t.rows.head? with
  | some r => .ok r
  | none => .error .indexError

/-- The non-`"Table"` layout boxes of a page, as in
`[bbox["bbox"] for bbox in layout_pred["bboxes"] if bbox["label"] != "Table"]`. -/
def nonTableBoxes (layout : List LayoutBox) : List BBox :=
  (layout.filter (fun b => b.label ≠ "Table")).map (fun b => b.bbox)

/-- The boolean merge test of `merge_split_tables`:
`first_row_bbox[1] - last_row_bbox[3] < 50 and not any(bbox[1] > last_row_bbox[3]
and bbox[3] < first_row_bbox[1] for bbox in layout_bboxes)`. -/
def mergeCondB (lastRow firstRow : Row) (layout : List LayoutBox) : Bool :=
  decide (firstRow.bbox.y0 - lastRow.bbox.y1 < 50) &&
  !((nonTableBoxes layout).any
      (fun b => decide (b.y0 > lastRow.bbox.y1) && decide (b.y1 < firstRow.bbox.y0)))

/-- The merge branch of `merge_split_tables`: rows and cells of the candidate are
appended to the accumulator first, then `max_row_id` is taken over the already
extended cell list, and the candidate's cells (shared by reference with the tail
of the extended list) get `row_id += max_row_id + 1`. -/
def mergeTables (acc cand : Table) : Except PyErr Table :=
  match pyMax ((acc.cells ++ cand.cells).map (fun c => c.row_id)) with
  | .error e => .error e
  | .ok maxRowId =>
    .ok { acc with
      rows := acc.rows ++ cand.rows,
      cells := acc.cells ++
        cand.cells.map (fun c => { c with row_id := c.row_id + maxRowId + 1 }) }

/-- One iteration of the inner `for table in tables` loop of
`merge_split_tables`, acting on the state (emitted tables, open accumulator). -/
def stitchStep (layout : List LayoutBox) (st : List Table × Option Table)
    (cand : Table) : Except PyErr (List Table × Option Table) :=
  match st with
  | (done, none) => .ok (done, some cand)
  | (done, some acc) =>
    match rowsLast acc with
    | .error e => .error e
    | .ok lastRow =>
      match rowsFirst cand with
      | .error e => .error e
      | .ok firstRow =>
        if mergeCondB lastRow firstRow layout then
          match mergeTables acc cand with
          | .error e => .error e
          | .ok merged => .ok (done, some merged)
        else
          .ok (done ++ [acc], some cand)

/-- `TableExtractionPipeline.merge_split_tables`: pages are
`zip(table_predictions, layout_predictions)`; the final open accumulator, if
any, is emitted at the end. -/
def mergeSplitTables (tablePreds : List (List Table))
    (layoutPreds : List (List LayoutBox)) : Except PyErr (List Table) :=
  match exceptFoldl (fun st page => exceptFoldl (stitchStep page.2) st page.1)
      ([], none) (tablePreds.zip layoutPreds) with
  | .error e => .error e
  | .ok (done, some t) => .ok (done ++ [t])
  | .ok (done, none) => .ok done

/-- The resource-exhaustion signal of the accelerated OCR tier
(`torch.OutOfMemoryError`). -/
inductive OOM where
  | oom
deriving DecidableEq, Repr

/-- `TableExtractionPipeline.run_ocr` over an abstract page list: `gpu` is the
accelerated per-page attempt, `cpu` the degraded worker (`none` models a worker
returning `None`, i.e. a dropped page).  On the first `OOM` the remaining pages
(`images[len(ocr_predictions):]`, so including the failing page) go to the pool
and the `None` results are filtered out, after which the loop breaks. -/
def runOcr {ι α : Type} (gpu : ι → Except OOM α) (cpu : ι → Option α) :
    List ι → List α
  | [] => []
  | img :: rest =>
    match gpu img with
    | .ok r => r :: runOcr gpu cpu rest
    | .error _ => (img :: rest).filterMap cpu

/-- The worker-pool size the degraded OCR tier actually creates:
`Pool(processes=6)` in `run_ocr`. -/
def poolProcesses : Nat := 6

/-- The pool size the preceding log line reports:
`min(6, cpu_count())` in `run_ocr`. -/
def loggedPoolSize (cpuCount : Nat) : Nat := min 6 cpuCount

/-- A JSON value, for the body of the refinement reply and the refined table. -/
inductive Json where
  | null
  | bool (b : Bool)
  | num (n : Int)
  | str (s : String)
  | arr (elems : List Json)
  | obj (fields : List (String × Json))

/-- Python subscription `j[k]` with a string key: key lookup on a dict
(`KeyError` when absent), `TypeError` on any non-dict value. -/
def jsonGetKey (j : Json) (k : String) : Except PyErr Json :=
  match j with
  | .obj fields =>
    match fields.lookup k with
    | some v => .ok v
    | none => .error .keyError
  | _ => .error .typeError

/-- Python subscription `j[i]` with an integer index: list indexing
(`IndexError` out of range), `KeyError` on a string-keyed dict, code-point
indexing on a string, `TypeError` otherwise. -/
def jsonGetIdx (j : Json) (i : Nat) : Except PyErr Json :=
  match j with
  | .arr xs =>
    match xs.get? i with
    | some v => .ok v
    | none => .error .indexError
  | .obj _ => .error .keyError
  | .str s =>
    match s.data.get? i with
    | some ch => .ok (.str (String.mk [ch]))
    | none => .error .indexError
  | _ => .error .typeError

/-- The observable outcome of `requests.post` in `gemini_refine`: either the
request itself raises (`RequestException`), or a reply arrives with a status
code and a body that either parses as JSON (`some`) or does not (`none`). -/
inductive HttpOutcome where
  | netError
  | reply (status : Nat) (body : Option Json)

/-- `response.raise_for_status()`: raises `HTTPError` (a `RequestException`)
exactly for status codes 400–599. -/
def raiseForStatus (status : Nat) : Except PyErr Unit :=
  if 400 ≤ status ∧ status < 600 then .error .requestException else .ok ()

/-- `response.json()`: the parsed body, or `JSONDecodeError` for a non-JSON body. -/
def responseJson (body : Option Json) : Except PyErr Json :=
  match body with
  | some j => .ok j
  | none => .error .jsonDecodeError

/-- The `try` block of `gemini_refine`: post, `raise_for_status`, parse the
body, walk `result["candidates"][0]["content"]["parts"][0]["text"]`, then
`json.loads` of that text.  `loads` models the external `json.loads` on the
returned string (`json.loads` of a non-string raises `TypeError`). -/
def geminiRefineTry (loads : String → Except PyErr Json) (outcome : HttpOutcome) :
    Except PyErr Json :=
  match outcome with
  | .netError => .error .requestException
  | .reply status body =>
    match raiseForStatus status with
    | .error e => .error e
    | .ok _ =>
      match responseJson body with
      | .error e => .error e
      | .ok result =>
        match jsonGetKey result "candidates" with
        | .error e => .error e
        | .ok candidates =>
          match jsonGetIdx candidates 0 with
          | .error e => .error e
          | .ok cand0 =>
            match jsonGetKey cand0 "content" with
            | .error e => .error e
            | .ok content =>
              match jsonGetKey content "parts" with
              | .error e => .error e
              | .ok parts =>
                match jsonGetIdx parts 0 with
                | .error e => .error e
                | .ok part0 =>
                  match jsonGetKey part0 "text" with
                  | .error e => .error e
                  | .ok refinedJson =>
                    match refinedJson with
                    | .str s => loads s
                    | _ => .error .typeError

/-- The exception classes named in the `except` clause of `gemini_refine`:
`(requests.RequestException, json.JSONDecodeError, KeyError)`. -/
def caughtByHandler (e : PyErr) : Bool :=
  match e with
  | .requestException => true
  | .jsonDecodeError => true
  | .keyError => true
  | _ => false

/-- `TableExtractionPipeline.gemini_refine`: run the `try` block; a caught
exception falls back to the original `table_data`, any other exception
propagates to the caller. -/
def geminiRefine (loads : String → Except PyErr Json) (tableData : Json)
    (outcome : HttpOutcome) : Except PyErr Json :=
  match geminiRefineTry loads outcome with
  | .ok j => .ok j
  | .error e => if caughtByHandler e then .ok tableData else .error e

/-- The containment test of `process_document`: a text line's box lies
(non-strictly, on all four edges) inside the table's box. -/
def containedIn (line tb : BBox) : Bool :=
  decide (line.x0 ≥ tb.x0) && decide (line.x1 ≤ tb.x1) &&
  decide (line.y0 ≥ tb.y0) && decide (line.y1 ≤ tb.y1)

/-- The OCR transcript collected for one table in `process_document`: every
text line of every page whose box is contained in the table's box, in page
order then line order — no page filter is applied. -/
def ocrTextFor (t : Table) (ocr : List OcrPage) : List String :=
  (ocr.map (fun p =>
    (p.text_lines.filter (fun l => containedIn l.bbox t.bbox)).map
      (fun l => l.text))).flatten

/-- Stable insertion of a cell into a col_id-sorted list, placing it before the
first cell of equal or larger `col_id`. -/
def insertByColId (c : Cell) : List Cell → List Cell
  | [] => [c]
  | d :: ds =>
    if c.col_id ≤ d.col_id then c :: d :: ds else d :: insertByColId c ds

/-- Python's stable `sorted(cells, key=lambda x: x["col_id"])`. -/
def sortByColId (cs : List Cell) : List Cell := cs.foldr insertByColId []

/-- Insertion of a natural number into a sorted list. -/
def insertNat (n : Nat) : List Nat → List Nat
  | [] => [n]
  | m :: ms => if n ≤ m then n :: m :: ms else m :: insertNat n ms

/-- Python's `sorted(...)` on a list of naturals. -/
def sortNats (ns : List Nat) : List Nat := ns.foldr insertNat []

/-- The per-table JSON object assembled by `process_document`:
`{"table_id", "page", "rows", "headers"}`. -/
structure TableJson where
  table_id : Nat
  page : Nat
  rows : List (List String)
  headers : List (List String)
deriving DecidableEq, Repr

/-- `cell["text"] if cell["text"] is not None else ""`. -/
def cellText (c : Cell) : String :=
  match c.text with
  | some s => s
  | none => ""

/-- The assembly of one table's JSON in `process_document`: cells are grouped
by `row_id` (groups keep the cell list's order), row ids are visited in sorted
order, each group is sorted by `col_id` into a row of strings, and the group
goes to `headers` or `rows` according to the `is_header` flag of the group's
first cell (first in list order, not in column order). -/
def assembleTable (idx : Nat) (t : Table) : TableJson :=
  (sortNats ((t.cells.map (fun c => c.row_id)).eraseDups)).foldl
    (fun tj rid =>
      match t.cells.filter (fun c => c.row_id == rid) with
      | [] => tj
      | c :: cs =>
        let rowData := (sortByColId (c :: cs)).map cellText
        if c.is_header then { tj with headers := tj.headers ++ [rowData] }
        else { tj with rows := tj.rows ++ [rowData] })
    { table_id := idx, page := t.page, rows := [], headers := [] }

/-- The per-table conversion loop of `process_document` after stitching:
for each merged table, the OCR transcript is gathered and joined, the
refinement call is made (`refine` models the value `gemini_refine` returns),
and the per-table JSON is assembled.  As in the source, the value bound to
`refinedTable` is not consulted by the assembly. -/
def processTables (refine : Table → String → Json) (ocr : List OcrPage)
    (mergedTables : List Table) : List TableJson :=
  mergedTables.enum.map (fun it =>
    let ocrText := String.intercalate "\n" (ocrTextFor it.2 ocr)
    let refinedTable := refine it.2 ocrText
    assembleTable it.1 it.2)

/-! ## Helper lemmas -/

deriving instance DecidableEq for Except

theorem le_foldl_max : ∀ (xs : List Nat) (a : Nat), a ≤ xs.foldl Nat.max a
  | [], _ => Nat.le_refl _
  | x :: xs, a => Nat.le_trans (Nat.le_max_left a x) (le_foldl_max xs (Nat.max a x))

theorem mem_le_foldl_max : ∀ (xs : List Nat) (a y : Nat), y ∈ xs → y ≤ xs.foldl Nat.max a
  | x :: xs, a, y, h => by
    rcases List.mem_cons.mp h with rfl | h'
    · exact Nat.le_trans (Nat.le_max_right _ _) (le_foldl_max xs _)
    · exact mem_le_foldl_max xs _ y h'

theorem pyMax_ub (xs : List Nat) (m : Nat) (h : pyMax xs = .ok m) : ∀ y ∈ xs, y ≤ m := by
  cases xs with
  | nil => exact absurd h (by simp [pyMax])
  | cons x xs =>
    have hm : xs.foldl Nat.max x = m := by
      simpa [pyMax] using h
    intro y hy
    rcases List.mem_cons.mp hy with rfl | hy'
    · exact hm ▸ le_foldl_max xs y
    · exact hm ▸ mem_le_foldl_max xs x y hy'

/-! ## C1: the assembled JSON ignores the refinement output -/

/-- A one-cell merged table whose detected text is `"raw"`. -/
def tableC1 : Table :=
  { page := 1, bbox := ⟨0, 0, 100, 100⟩, rows := [⟨⟨0, 0, 100, 50⟩⟩],
    cells := [⟨0, 0, false, some "raw", ⟨0, 0, 100, 50⟩⟩] }

/-- C1: the per-table JSON emitted by `process_document` does not depend on the
value returned by the refinement call — `refined_table` is computed and then
never consulted — so the emitted cells are the pre-refinement table's cells
(here `"raw"`, whatever the refiner answers). -/
theorem assembly_ignores_refinement :
    (∀ (f g : Table → String → Json) (ocr : List OcrPage) (ts : List Table),
        processTables f ocr ts = processTables g ocr ts) ∧
    processTables (fun _ _ => Json.str "refined") [] [tableC1] =
      [{ table_id := 0, page := 1, rows := [["raw"]], headers := [] }] :=
  ⟨fun _ _ _ _ => rfl, by decide⟩

/-! ## C9: the degraded OCR pool size ignores `cpu_count` -/

/-- C9: `run_ocr` creates `Pool(processes=6)` unconditionally, while its own
log line announces `min(6, cpu_count())` workers; on a 2-core machine the pool
size is 6, not `min(6, 2) = 2`. -/
theorem pool_size_constant_ignores_cpu_count :
    poolProcesses = 6 ∧ loggedPoolSize 2 = 2 ∧ poolProcesses ≠ loggedPoolSize 2 := by
  decide

/-! ## C8: stitching a single already-merged table is the identity -/

/-- C8: running `merge_split_tables` on a single already-merged table and no
further fragments (also with a trailing fragment-free page) returns exactly
that table. -/
theorem merge_idempotent_on_merged (M : Table) (L L' : List LayoutBox) :
    mergeSplitTables [[M]] [L] = .ok [M] ∧
    mergeSplitTables [[M], []] [L, L'] = .ok [M] :=
  ⟨rfl, rfl⟩

/-! ## C4: the row_id offset is the combined maximum, not the accumulator's -/

/-- An accumulator whose only cell has `row_id 0`. -/
def accC4 : Table :=
  { page := 1, bbox := ⟨0, 0, 0, 0⟩, rows := [⟨⟨0, 0, 0, 0⟩⟩],
    cells := [⟨0, 0, false, none, ⟨0, 0, 0, 0⟩⟩] }

/-- A candidate with cells `row_id 0` and `row_id 1`. -/
def candC4 : Table :=
  { page := 2, bbox := ⟨0, 0, 0, 0⟩, rows := [⟨⟨0, 0, 0, 0⟩⟩],
    cells := [⟨0, 0, false, none, ⟨0, 0, 0, 0⟩⟩, ⟨1, 0, false, none, ⟨0, 0, 0, 0⟩⟩] }

/-- C4 counterexample: the claim predicts row_ids `0..m` and `m+1..m+1+k`, here
`[0, 1, 2]` (accumulator max `m = 0`); the code offsets by the maximum over the
already-extended cell list and produces `[0, 2, 3]`. -/
theorem merge_offset_counterexample :
    (mergeTables accC4 candC4).map (fun t => t.cells.map (fun c => c.row_id)) =
      .ok [0, 2, 3] ∧
    ¬((mergeTables accC4 candC4).map (fun t => t.cells.map (fun c => c.row_id)) =
      .ok [0, 1, 2]) := by
  decide

/-- C4 amended: when a candidate is merged, each candidate cell's `row_id` is
increased by exactly (the maximum `row_id` over the accumulator's and the
candidate's cells combined) + 1, a bound dominating both sides. -/
theorem merge_offset_combined_max (acc cand : Table) (m : Nat)
    (hmax : pyMax ((acc.cells ++ cand.cells).map (fun c => c.row_id)) = .ok m) :
    mergeTables acc cand = .ok { acc with
        rows := acc.rows ++ cand.rows,
        cells := acc.cells ++
          cand.cells.map (fun c => { c with row_id := c.row_id + m + 1 }) } ∧
    (∀ c ∈ acc.cells, c.row_id ≤ m) ∧ (∀ c ∈ cand.cells, c.row_id ≤ m) := by
  refine ⟨?_, ?_, ?_⟩
  · unfold mergeTables
    rw [hmax]
  · intro c hc
    exact pyMax_ub _ _ hmax _ (List.mem_map_of_mem _ (List.mem_append_left _ hc))
  · intro c hc
    exact pyMax_ub _ _ hmax _ (List.mem_map_of_mem _ (List.mem_append_right _ hc))

/-- C4 witness: on the concrete accumulator/candidate pair the combined maximum
is 1 and the candidate cells are shifted by 2. -/
theorem merge_offset_witness :
    pyMax ((accC4.cells ++ candC4.cells).map (fun c => c.row_id)) = .ok 1 ∧
    mergeTables accC4 candC4 = .ok { accC4 with
        rows := accC4.rows ++ candC4.rows,
        cells := accC4.cells ++
          candC4.cells.map (fun c => { c with row_id := c.row_id + 1 + 1 }) } :=
  ⟨by decide, (merge_offset_combined_max accC4 candC4 1 (by decide)).1⟩

/-! ## C5: an empty-rows fragment raises instead of being skipped -/

/-- A one-row fragment that opens the accumulator. -/
def tableC5a : Table :=
  { page := 1, bbox := ⟨0, 0, 0, 0⟩, rows := [⟨⟨0, 0, 0, 0⟩⟩],
    cells := [⟨0, 0, false, none, ⟨0, 0, 0, 0⟩⟩] }

/-- A fragment with an empty `rows` list. -/
def tableC5b : Table :=
  { page := 1, bbox := ⟨0, 0, 0, 0⟩, rows := [], cells := [] }

/-- C5 counterexample: a run containing an empty-rows fragment after an open
accumulator does not skip it — `table["rows"][0]` raises `IndexError` and the
whole stitching aborts. -/
theorem empty_rows_fragment_raises :
    tableC5b.rows = [] ∧
    mergeSplitTables [[tableC5a, tableC5b]] [[]] = .error .indexError :=
  ⟨rfl, rfl⟩

/-- C5 amended: whenever an empty-rows candidate is considered against an open
accumulator (with at least one row), the stitch step raises `IndexError`. -/
theorem empty_rows_candidate_index_error (layout : List LayoutBox)
    (done : List Table) (acc cand : Table)
    (hacc : acc.rows ≠ []) (hcand : cand.rows = []) :
    stitchStep layout (done, some acc) cand = .error .indexError := by
  obtain ⟨r, hr⟩ := Option.isSome_iff_exists.mp
    (List.getLast?_isSome.mpr hacc)
  simp [stitchStep, rowsLast, rowsFirst, hr, hcand]

/-- C5 witness: the amended statement at the concrete pair of fragments. -/
theorem empty_rows_witness :
    tableC5a.rows ≠ [] ∧ tableC5b.rows = [] ∧
    stitchStep [] ([], some tableC5a) tableC5b = .error .indexError :=
  ⟨by decide, rfl,
    empty_rows_candidate_index_error [] [] tableC5a tableC5b (by decide) rfl⟩

/-! ## C2: refinement fallback and its uncaught gap -/

/-- C2 counterexample: a 200 reply whose JSON body is `{"candidates": []}` —
the expected content path is missing — makes `gemini_refine` raise an uncaught
`IndexError` instead of returning its input table. -/
theorem refine_empty_candidates_raises :
    geminiRefine (fun _ => .error .jsonDecodeError) (.str "table")
        (.reply 200 (some (.obj [("candidates", .arr [])]))) = .error .indexError ∧
    ¬(geminiRefine (fun _ => .error .jsonDecodeError) (.str "table")
        (.reply 200 (some (.obj [("candidates", .arr [])]))) = .ok (.str "table")) :=
  ⟨rfl, fun h => nomatch h⟩

/-- C2 amended: `gemini_refine` returns exactly its input when the failure is a
network error, a 400–599 status, a non-JSON body, or any failure the `except`
clause names (`RequestException`, `JSONDecodeError`, `KeyError`, e.g. a missing
dictionary key on the content path); failures outside that clause, such as the
`IndexError` from a too-short `candidates` list, propagate. -/
theorem refine_fallback_on_caught_failures
    (loads : String → Except PyErr Json) (tableData : Json) (outcome : HttpOutcome)
    (h : outcome = .netError
       ∨ (∃ s b, outcome = .reply s b ∧ 400 ≤ s ∧ s < 600)
       ∨ (∃ s, outcome = .reply s none ∧ ¬(400 ≤ s ∧ s < 600))
       ∨ ∃ e, geminiRefineTry loads outcome = .error e ∧ caughtByHandler e = true) :
    geminiRefine loads tableData outcome = .ok tableData := by
  have key : ∃ e, geminiRefineTry loads outcome = .error e ∧ caughtByHandler e = true := by
    rcases h with rfl | ⟨s, b, rfl, hs⟩ | ⟨s, rfl, hs⟩ | h
    · exact ⟨.requestException, rfl, rfl⟩
    · refine ⟨.requestException, ?_, rfl⟩
      have hrs : raiseForStatus s = .error .requestException := by
        unfold raiseForStatus
        rw [if_pos hs]
      simp [geminiRefineTry, hrs]
    · refine ⟨.jsonDecodeError, ?_, rfl⟩
      have hrs : raiseForStatus s = .ok () := by
        unfold raiseForStatus
        rw [if_neg hs]
      simp [geminiRefineTry, hrs, responseJson]
    · exact h
  obtain ⟨e, he, hc⟩ := key
  simp [geminiRefine, he, hc]

/-- C2 witness: the amended fallback at a concrete network error. -/
theorem refine_fallback_witness :
    geminiRefine (fun _ => .error .jsonDecodeError) (.str "t") .netError =
      .ok (.str "t") :=
  refine_fallback_on_caught_failures _ _ _ (Or.inl rfl)

/-! ## C3: the merge decision -/

/-- The boolean merge test holds exactly when the vertical gap is strictly
below 50 and no layout region labelled other than `"Table"` lies fully between
the accumulator's last-row bottom edge and the candidate's first-row top edge. -/
theorem mergeCondB_iff (lastRow firstRow : Row) (layout : List LayoutBox) :
    mergeCondB lastRow firstRow layout = true ↔
      (firstRow.bbox.y0 - lastRow.bbox.y1 < 50 ∧
        ¬ ∃ r ∈ layout, r.label ≠ "Table" ∧
          lastRow.bbox.y1 < r.bbox.y0 ∧ r.bbox.y1 < firstRow.bbox.y0) := by
  rw [mergeCondB, Bool.and_eq_true, Bool.not_eq_true', decide_eq_true_eq,
    List.any_eq_false]
  constructor
  · rintro ⟨h1, h2⟩
    refine ⟨h1, ?_⟩
    rintro ⟨r, hr, hlbl, hy0, hy1⟩
    have hmem : r.bbox ∈ nonTableBoxes layout := by
      rw [nonTableBoxes, List.mem_map]
      exact ⟨r, List.mem_filter.mpr ⟨hr, by simpa using hlbl⟩, rfl⟩
    have hneg := h2 r.bbox hmem
    simp only [Bool.and_eq_true, decide_eq_true_eq, not_and] at hneg
    exact hneg hy0 hy1
  · rintro ⟨h1, h2⟩
    refine ⟨h1, ?_⟩
    intro b hb
    rw [nonTableBoxes, List.mem_map] at hb
    obtain ⟨r, hrf, rfl⟩ := hb
    obtain ⟨hr, hlbl⟩ := List.mem_filter.mp hrf
    simp only [Bool.and_eq_true, decide_eq_true_eq, not_and]
    intro hy0 hy1
    exact h2 ⟨r, hr, by simpa using hlbl, hy0, hy1⟩

/-- C3: with an open accumulator, the stitch step merges the candidate exactly
when the gap is strictly below 50 pixels and no non-`"Table"` layout region of
the candidate's page lies fully between the two edges; otherwise the
accumulator is emitted and the candidate becomes the new accumulator. -/
theorem stitch_merge_iff_gap_and_no_region
    (layout : List LayoutBox) (done : List Table) (acc cand : Table)
    (lastRow firstRow : Row)
    (hlast : acc.rows.getLast? = some lastRow)
    (hfirst : cand.rows.head? = some firstRow) :
    ((firstRow.bbox.y0 - lastRow.bbox.y1 < 50 ∧
        ¬ ∃ r ∈ layout, r.label ≠ "Table" ∧
          lastRow.bbox.y1 < r.bbox.y0 ∧ r.bbox.y1 < firstRow.bbox.y0) →
      stitchStep layout (done, some acc) cand =
        (mergeTables acc cand).map (fun m => (done, some m))) ∧
    (¬(firstRow.bbox.y0 - lastRow.bbox.y1 < 50 ∧
        ¬ ∃ r ∈ layout, r.label ≠ "Table" ∧
          lastRow.bbox.y1 < r.bbox.y0 ∧ r.bbox.y1 < firstRow.bbox.y0) →
      stitchStep layout (done, some acc) cand = .ok (done ++ [acc], some cand)) := by
  constructor
  · intro hc
    have hb : mergeCondB lastRow firstRow layout = true :=
      (mergeCondB_iff lastRow firstRow layout).mpr hc
    simp only [stitchStep, rowsLast, rowsFirst, hlast, hfirst, hb, if_true]
    cases hm : mergeTables acc cand <;> simp [Except.map]
  · intro hc
    have hb : mergeCondB lastRow firstRow layout = false :=
      Bool.eq_false_iff.mpr (fun hh => hc ((mergeCondB_iff lastRow firstRow layout).mp hh))
    simp only [stitchStep, rowsLast, rowsFirst, hlast, hfirst, hb, Bool.false_eq_true,
      if_false]

/-- The spec's merge-trigger example: accumulator last row bottom at y=100. -/
def accC3 : Table :=
  { page := 1, bbox := ⟨0, 0, 200, 100⟩, rows := [⟨⟨0, 50, 200, 100⟩⟩],
    cells := [⟨0, 0, true, some "h", ⟨0, 50, 200, 100⟩⟩] }

/-- The spec's merge-trigger example: candidate first row top at y=130. -/
def candC3 : Table :=
  { page := 2, bbox := ⟨0, 130, 200, 160⟩, rows := [⟨⟨0, 130, 200, 160⟩⟩],
    cells := [⟨0, 0, false, some "v", ⟨0, 130, 200, 160⟩⟩] }

/-- C3 witness: a 30-pixel gap with no intervening region merges. -/
theorem stitch_merge_witness :
    accC3.rows.getLast? = some ⟨⟨0, 50, 200, 100⟩⟩ ∧
    candC3.rows.head? = some ⟨⟨0, 130, 200, 160⟩⟩ ∧
    stitchStep [] ([], some accC3) candC3 =
      (mergeTables accC3 candC3).map (fun m => ([], some m)) :=
  ⟨rfl, rfl,
    (stitch_merge_iff_gap_and_no_region [] [] accC3 candC3
      ⟨⟨0, 50, 200, 100⟩⟩ ⟨⟨0, 130, 200, 160⟩⟩ rfl rfl).1 (by decide)⟩

/-! ## C10: the OCR transcript applies containment but no page filter -/

/-- C10: a string belongs to the transcript gathered for a table exactly when
some page of the document — any page, there is no page filter — has a text
line with that text whose box is contained (non-strictly, on all four edges)
in the table's box. -/
theorem ocr_transcript_membership (t : Table) (ocr : List OcrPage) (s : String) :
    s ∈ ocrTextFor t ocr ↔
      ∃ p ∈ ocr, ∃ l ∈ p.text_lines, containedIn l.bbox t.bbox = true ∧ l.text = s := by
  rw [ocrTextFor]
  constructor
  · intro hmem
    rw [List.mem_flatten] at hmem
    obtain ⟨L, hL, hsL⟩ := hmem
    rw [List.mem_map] at hL
    obtain ⟨p, hp, rfl⟩ := hL
    rw [List.mem_map] at hsL
    obtain ⟨l, hl, rfl⟩ := hsL
    obtain ⟨hl', hcont⟩ := List.mem_filter.mp hl
    exact ⟨p, hp, l, hl', hcont, rfl⟩
  · rintro ⟨p, hp, l, hl, hcont, rfl⟩
    rw [List.mem_flatten]
    refine ⟨_, List.mem_map.mpr ⟨p, hp, rfl⟩, ?_⟩
    exact List.mem_map.mpr ⟨l, List.mem_filter.mpr ⟨hl, hcont⟩, rfl⟩

/-! ## C6: uniqueness of (row_id, col_id) pairs -/

/-- The `(row_id, col_id)` pair a cell carries. -/
def cellPair (c : Cell) : Nat × Nat := (c.row_id, c.col_id)

/-- The `(row_id, col_id)` pairs across a table's cells contain no duplicates. -/
def NodupPairs (t : Table) : Prop := (t.cells.map cellPair).Nodup

instance (t : Table) : Decidable (NodupPairs t) := List.nodupDecidable _

/-- A merge step preserves pair uniqueness: the shifted candidate row_ids all
exceed the combined maximum, which dominates every accumulator row_id. -/
theorem mergeTables_nodup {acc cand T : Table}
    (hm : mergeTables acc cand = .ok T)
    (ha : NodupPairs acc) (hc : NodupPairs cand) : NodupPairs T := by
  unfold mergeTables at hm
  cases hpm : pyMax ((acc.cells ++ cand.cells).map (fun c => c.row_id)) with
  | error e => rw [hpm] at hm; cases hm
  | ok m =>
    rw [hpm] at hm
    injection hm with hT
    subst hT
    unfold NodupPairs at *
    simp only [List.map_append, List.map_map]
    rw [List.nodup_append]
    have hshift : cand.cells.map (cellPair ∘ fun c => { c with row_id := c.row_id + m + 1 }) =
        (cand.cells.map cellPair).map (fun q : Nat × Nat => (q.1 + m + 1, q.2)) := by
      rw [List.map_map]
      rfl
    refine ⟨ha, ?_, ?_⟩
    · rw [hshift]
      refine hc.map ?_
      intro q q' hqq
      obtain ⟨q1, q2⟩ := q
      obtain ⟨q1', q2'⟩ := q'
      simp only [Prod.mk.injEq] at hqq ⊢
      omega
    · intro q hq1 hq2
      rw [List.mem_map] at hq1
      obtain ⟨c, hcmem, rfl⟩ := hq1
      rw [hshift, List.mem_map] at hq2
      obtain ⟨q', _, hq'⟩ := hq2
      have hle : c.row_id ≤ m :=
        pyMax_ub _ _ hpm _ (List.mem_map_of_mem _ (List.mem_append_left _ hcmem))
      have : (cellPair c).1 = q'.1 + m + 1 := by rw [← hq']
      simp only [cellPair] at this
      omega

/-- The invariant carried through the stitching loop: every emitted table and
the open accumulator (when present) have duplicate-free pairs. -/
def StitchInv (st : List Table × Option Table) : Prop :=
  (∀ t ∈ st.1, NodupPairs t) ∧ ∀ t, st.2 = some t → NodupPairs t

theorem stitchStep_preserves {layout : List LayoutBox}
    {st st' : List Table × Option Table} {cand : Table}
    (hst : StitchInv st) (hcand : NodupPairs cand)
    (h : stitchStep layout st cand = .ok st') : StitchInv st' := by
  obtain ⟨done, cur⟩ := st
  cases cur with
  | none =>
    injection h with h'
    subst h'
    exact ⟨hst.1, fun t ht => by cases ht; exact hcand⟩
  | some acc =>
    have hacc : NodupPairs acc := hst.2 acc rfl
    simp only [stitchStep] at h
    cases hL : rowsLast acc with
    | error e => simp only [hL] at h; cases h
    | ok lastRow =>
      simp only [hL] at h
      cases hF : rowsFirst cand with
      | error e => simp only [hF] at h; cases h
      | ok firstRow =>
        simp only [hF] at h
        split at h
        · cases hM : mergeTables acc cand with
          | error e => simp only [hM] at h; cases h
          | ok merged =>
            simp only [hM] at h
            injection h with h'
            subst h'
            exact ⟨hst.1, fun t ht => by
              cases ht; exact mergeTables_nodup hM hacc hcand⟩
        · injection h with h'
          subst h'
          refine ⟨?_, fun t ht => by cases ht; exact hcand⟩
          intro t ht
          rcases List.mem_append.mp ht with ht' | ht'
          · exact hst.1 t ht'
          · rcases List.mem_singleton.mp ht' with rfl
            exact hacc

/-- An invariant `P` survives an `exceptFoldl` that ends in `.ok`, provided
each step preserves it for inputs satisfying `Q`. -/
theorem exceptFoldl_inv {ε α β : Type} (f : β → α → Except ε β)
    (P : β → Prop) (Q : α → Prop)
    (hstep : ∀ b a b', P b → Q a → f b a = .ok b' → P b') :
    ∀ (l : List α) (b b' : β), (∀ a ∈ l, Q a) → P b →
      exceptFoldl f b l = .ok b' → P b' := by
  intro l
  induction l with
  | nil =>
    intro b b' _ hP h
    simp only [exceptFoldl] at h
    injection h with h'
    exact h' ▸ hP
  | cons a l ih =>
    intro b b' hQ hP h
    simp only [exceptFoldl] at h
    cases hfa : f b a with
    | error e => rw [hfa] at h; cases h
    | ok b2 =>
      rw [hfa] at h
      exact ih b2 b' (fun x hx => hQ x (List.mem_cons_of_mem a hx))
        (hstep b a b2 hP (hQ a (List.mem_cons_self a l)) hfa) h

/-- C6: if every input fragment's `(row_id, col_id)` pairs are unique within
that fragment, every table a successful `merge_split_tables` run emits has
duplicate-free `(row_id, col_id)` pairs. -/
theorem stitchInv_init : StitchInv ([], none) := by
  unfold StitchInv
  refine ⟨?_, ?_⟩
  · intro t ht
    cases ht
  · intro t ht
    cases ht

theorem merged_tables_pairs_nodup (tablePreds : List (List Table))
    (layoutPreds : List (List LayoutBox)) (ts : List Table)
    (hfrag : ∀ page ∈ tablePreds, ∀ frag ∈ page, NodupPairs frag)
    (hrun : mergeSplitTables tablePreds layoutPreds = .ok ts) :
    ∀ t ∈ ts, NodupPairs t := by
  unfold mergeSplitTables at hrun
  cases hfold : exceptFoldl (fun st page => exceptFoldl (stitchStep page.2) st page.1)
      ([], none) (tablePreds.zip layoutPreds) with
  | error e => rw [hfold] at hrun; cases hrun
  | ok st =>
    rw [hfold] at hrun
    have hinv : StitchInv st :=
      exceptFoldl_inv _ StitchInv (fun page => ∀ frag ∈ page.1, NodupPairs frag)
        (fun b page b' hP hQ hh =>
          exceptFoldl_inv _ StitchInv NodupPairs
            (fun s c s' hs hc hh2 => stitchStep_preserves hs hc hh2)
            page.1 b b' hQ hP hh)
        (tablePreds.zip layoutPreds) ([], none) st
        (fun pg hpg => by
          obtain ⟨tp, lp⟩ := pg
          exact hfrag tp (List.of_mem_zip hpg).1)
        stitchInv_init
        hfold
    obtain ⟨done, cur⟩ := st
    cases cur with
    | none =>
      injection hrun with h'
      subst h'
      exact hinv.1
    | some tl =>
      injection hrun with h'
      subst h'
      intro t ht
      rcases List.mem_append.mp ht with ht' | ht'
      · exact hinv.1 t ht'
      · rcases List.mem_singleton.mp ht' with rfl
        exact hinv.2 _ rfl

/-- The table produced by stitching `accC3` and `candC3`. -/
def mergedC6 : Table :=
  { page := 1, bbox := ⟨0, 0, 200, 100⟩,
    rows := [⟨⟨0, 50, 200, 100⟩⟩, ⟨⟨0, 130, 200, 160⟩⟩],
    cells := [⟨0, 0, true, some "h", ⟨0, 50, 200, 100⟩⟩,
              ⟨1, 0, false, some "v", ⟨0, 130, 200, 160⟩⟩] }

/-- C6 witness: a concrete two-fragment run whose merged output has
duplicate-free pairs. -/
theorem merged_tables_pairs_nodup_witness : NodupPairs mergedC6 :=
  merged_tables_pairs_nodup [[accC3, candC3]] [[]] [mergedC6]
    (by decide) (by decide) mergedC6 (by simp)

/-! ## C7: OCR degradation keeps completed pages and drops failed workers -/

theorem length_filterMap_sub_countP {α β : Type} (f : α → Option β) :
    ∀ l : List α,
      (l.filterMap f).length = l.length - l.countP (fun a => (f a).isNone) := by
  intro l
  induction l with
  | nil => rfl
  | cons a l ih =>
    cases hfa : f a with
    | none =>
      have h1 : (a :: l).filterMap f = l.filterMap f := by
        simp [List.filterMap_cons, hfa]
      have h2 : (a :: l).countP (fun a => (f a).isNone) =
          l.countP (fun a => (f a).isNone) + 1 := by
        simp [List.countP_cons, hfa]
      rw [h1, h2, List.length_cons, ih, Nat.succ_sub_succ]
    | some b =>
      have h1 : (a :: l).filterMap f = b :: l.filterMap f := by
        simp [List.filterMap_cons, hfa]
      have h2 : (a :: l).countP (fun a => (f a).isNone) =
          l.countP (fun a => (f a).isNone) := by
        simp [List.countP_cons, hfa]
      have hle : l.countP (fun a => (f a).isNone) ≤ l.length :=
        List.countP_le_length _
      rw [h1, h2, List.length_cons, List.length_cons, ih]
      omega

theorem length_filterMap_all_some {α β : Type} (f : α → Option β) :
    ∀ l : List α, (∀ a ∈ l, (f a).isSome = true) →
      (l.filterMap f).length = l.length := by
  intro l
  induction l with
  | nil => intro _; rfl
  | cons a l ih =>
    intro h
    cases hfa : f a with
    | none => exact absurd (h a (List.mem_cons_self a l)) (by simp [hfa])
    | some b =>
      have h1 : (a :: l).filterMap f = b :: l.filterMap f := by
        simp [List.filterMap_cons, hfa]
      rw [h1, List.length_cons, List.length_cons,
        ih (fun x hx => h x (List.mem_cons_of_mem a hx))]

/-- C7: if the accelerated tier succeeds on every page of `done` and exhausts
resources at page `p`, `run_ocr` keeps the accelerated results of `done`
unchanged, hands `p :: rest` (the failing page included) to the degraded tier,
drops exactly the pages whose worker returns `None`, and outputs
(total pages) − (dropped pages) page results. -/
theorem run_ocr_degradation {ι α : Type} (gpu : ι → Except OOM α) (cpu : ι → Option α)
    (done : List ι) (p : ι) (rest : List ι)
    (hdone : ∀ q ∈ done, ((gpu q).toOption).isSome = true)
    (hp : gpu p = .error .oom) :
    runOcr gpu cpu (done ++ p :: rest) =
      done.filterMap (fun q => (gpu q).toOption) ++ (p :: rest).filterMap cpu ∧
    (runOcr gpu cpu (done ++ p :: rest)).length =
      (done ++ p :: rest).length - (p :: rest).countP (fun q => (cpu q).isNone) := by
  have hmain : ∀ d : List ι, (∀ q ∈ d, ((gpu q).toOption).isSome = true) →
      runOcr gpu cpu (d ++ p :: rest) =
        d.filterMap (fun q => (gpu q).toOption) ++ (p :: rest).filterMap cpu := by
    intro d
    induction d with
    | nil =>
      intro _
      rw [List.nil_append, List.filterMap_nil, List.nil_append]
      simp only [runOcr, hp]
    | cons q d ih =>
      intro hd
      have hq := hd q (List.mem_cons_self q d)
      cases hgq : gpu q with
      | error e => rw [hgq] at hq; simp [Except.toOption] at hq
      | ok r =>
        have h1 : runOcr gpu cpu ((q :: d) ++ p :: rest) =
            r :: runOcr gpu cpu (d ++ p :: rest) := by
          simp only [List.cons_append, runOcr, hgq]
          rfl
        have h2 : (q :: d).filterMap (fun q => (gpu q).toOption) =
            r :: d.filterMap (fun q => (gpu q).toOption) := by
          simp [List.filterMap_cons, hgq, Except.toOption]
        rw [h1, h2, ih (fun x hx => hd x (List.mem_cons_of_mem q hx)),
          List.cons_append]
  refine ⟨hmain done hdone, ?_⟩
  rw [hmain done hdone, List.length_append, List.length_append,
    length_filterMap_all_some _ done hdone,
    length_filterMap_sub_countP cpu (p :: rest)]
  have hle : (p :: rest).countP (fun q => (cpu q).isNone) ≤ (p :: rest).length :=
    List.countP_le_length _
  omega

/-- A 4-page accelerated tier that succeeds on pages 0 and 1 and exhausts
resources at page 2. -/
def gpuW : Nat → Except OOM Nat := fun i => if i < 2 then .ok (100 + i) else .error .oom

/-- A degraded worker that fails (returns `None`) exactly on page 3. -/
def cpuW : Nat → Option Nat := fun i => if i == 3 then none else some (200 + i)

/-- C7 witness: the degradation theorem at a concrete 4-page run with one
dropped page. -/
theorem run_ocr_degradation_witness :
    runOcr gpuW cpuW ([0, 1] ++ 2 :: [3]) =
      [0, 1].filterMap (fun q => (gpuW q).toOption) ++ (2 :: [3]).filterMap cpuW ∧
    (runOcr gpuW cpuW ([0, 1] ++ 2 :: [3])).length =
      ([0, 1] ++ 2 :: [3]).length - (2 :: [3]).countP (fun q => (cpuW q).isNone) :=
  run_ocr_degradation gpuW cpuW [0, 1] 2 [3] (by decide) (by decide)
